import Mathlib

/-!
Shallow embedding of the product-feed batch processor
(`assignment.js`, with constants from `config.js`).

The processor state is passed explicitly; JavaScript exceptions are
modelled by an `Option String` result (`some msg` = an error with message
`msg` was thrown, `none` = normal return).  The external sink
(`external_service.js` / the injected mock) is modelled as a function
from the global call index to an outcome: `none` = the call succeeds,
`some msg` = the call throws an error whose message is `msg`.

Time is modelled by a ghost `clock` (milliseconds) advanced by each
backoff sleep; `Date` timestamps are taken from this clock.  Rate
limiting (`minBatchInterval`, default 0 and never set by the entry
point) is not modelled: it only ever adds extra waiting and touches no
other state.  The time-gated progress log (`showProgress`) only emits
info-severity logs and touches no other state; it is likewise elided.
-/

namespace PFeed

/-- Configuration values from `config.js` (environment-overridable,
with the listed defaults). -/
structure Config where
  maxBatchSize : Nat
  bufferSize : Nat
  maxRetries : Nat
  retryDelay : Nat
deriving Repr, DecidableEq

/-- The defaults from `config.js`: 5 MB ceiling, 1 KB safety buffer,
3 retries, 1000 ms base delay. -/
def defaultConfig : Config :=
  { maxBatchSize := 5 * 1024 * 1024, bufferSize := 1024,
    maxRetries := 3, retryDelay := 1000 }

/-- The bound `MAX_BATCH_SIZE - BUFFER_SIZE` used by `addProductToBatch`. -/
def sizeLimit (cfg : Config) : Nat := cfg.maxBatchSize - cfg.bufferSize

/-- A raw field value as produced by the XML stream: either a plain
string, or a text-holder object carrying its text in a `$text`
property (`xml-stream` produces such objects for preserved elements). -/
inductive RawVal where
  | vStr (s : String)
  | vHolder (t : String)
deriving Repr, DecidableEq

open RawVal

/-- JavaScript truthiness of a field value: an empty string is falsy,
a non-empty string is truthy, any object is truthy. -/
def truthyV : RawVal → Bool
  | vStr s => s ≠ ""
  | vHolder _ => true

/-- JavaScript truthiness of a possibly-absent field (`undefined` is
falsy). -/
def truthyO : Option RawVal → Bool
  | none => false
  | some v => truthyV v

/-- JavaScript `a || b` on a possibly-absent field value. -/
def jsOr (a : Option RawVal) (b : RawVal) : RawVal :=
  match a with
  | none => b
  | some v => if truthyV v then v else b

/-- A raw item as seen by `extractProductData`: the six fields the code
reads (`g:id`, `id`, `title`, `g:description`, `description`,
`summary`), each possibly absent. -/
structure RawItem where
  gId : Option RawVal
  bareId : Option RawVal
  title : Option RawVal
  gDescription : Option RawVal
  description : Option RawVal
  summary : Option RawVal
deriving Repr, DecidableEq

/-- An extracted product: the object `{id, title, description}` built
by `extractProductData`.  A field can remain a text-holder object when
the cleanup step does not unwrap it. -/
structure Product where
  id : RawVal
  title : RawVal
  description : RawVal
deriving Repr, DecidableEq

/-- JavaScript `String.prototype.trim` (ASCII-whitespace model): drop
leading and trailing whitespace characters. -/
def jsTrim (s : String) : String :=
  ⟨((s.data.dropWhile Char.isWhitespace).reverse.dropWhile
      Char.isWhitespace).reverse⟩

/-- The cleanup loop body of `extractProductData`: a string is trimmed;
an object whose `$text` property is truthy (a non-empty string) is
replaced by that text trimmed; any other object is left unchanged. -/
def cleanup (v : RawVal) : RawVal :=
  match v with
  | vStr s => vStr (jsTrim s)
  | vHolder t => if t ≠ "" then vStr (jsTrim t) else vHolder t

/-- `extractProductData` from `assignment.js` (lines 32-51):
`id: item['g:id'] || item.id || ''`, `title: item.title || ''`,
`description: item['g:description'] || item.description ||
item.summary || ''`, each followed by the cleanup step. -/
def extractProductData (item : RawItem) : Product :=
  { id := cleanup (jsOr item.gId (jsOr item.bareId (vStr ""))),
    title := cleanup (jsOr item.title (vStr "")),
    description :=
      cleanup (jsOr item.gDescription
        (jsOr item.description (jsOr item.summary (vStr "")))) }

/-- Lower-case hexadecimal digit, as produced by `JSON.stringify`
unicode escapes. -/
def hexDigitChar (n : Nat) : Char :=
  if n < 10 then Char.ofNat (48 + n) else Char.ofNat (87 + n)

/-- `JSON.stringify` escaping of one character of a string value. -/
def escChar (c : Char) : String :=
  if c = '\"' then "\\\""
  else if c = '\\' then "\\\\"
  else if c = '\x08' then "\\b"
  else if c = '\t' then "\\t"
  else if c = '\n' then "\\n"
  else if c = '\x0c' then "\\f"
  else if c = '\r' then "\\r"
  else if c.toNat < 32 then
    "\\u00" ++ String.singleton (hexDigitChar (c.toNat / 16))
      ++ String.singleton (hexDigitChar (c.toNat % 16))
  else String.singleton c

/-- `JSON.stringify` escaping of a whole string. -/
def escapeJson (s : String) : String :=
  s.data.foldl (fun acc c => acc ++ escChar c) ""

/-- A JSON string literal: quotes around the escaped contents. -/
def jsonQuote (s : String) : String := "\"" ++ escapeJson s ++ "\""

/-- `JSON.stringify` of one field value: a string serializes as a JSON
string, a text-holder object serializes as an object with its `$text`
property. -/
def stringifyVal : RawVal → String
  | vStr s => jsonQuote s
  | vHolder t => "\x7b" ++ jsonQuote "$text" ++ ":" ++ jsonQuote t ++ "\x7d"

/-- `JSON.stringify` of one product object, keys in insertion order
`id`, `title`, `description`, no whitespace. -/
def stringifyProduct (p : Product) : String :=
  "\x7b" ++ jsonQuote "id" ++ ":" ++ stringifyVal p.id
    ++ "," ++ jsonQuote "title" ++ ":" ++ stringifyVal p.title
    ++ "," ++ jsonQuote "description" ++ ":" ++ stringifyVal p.description
    ++ "\x7d"

/-- Comma-separated concatenation (the element joining of
`JSON.stringify` on an array). -/
def sepComma : List String → String
  | [] => ""
  | [x] => x
  | x :: xs => x ++ "," ++ sepComma xs

/-- `JSON.stringify` of a batch: a JSON array of the product objects. -/
def stringifyBatch (ps : List Product) : String :=
  "[" ++ sepComma (ps.map stringifyProduct) ++ "]"

/-- The UTF-8 byte length of a string (`Buffer.byteLength(s, 'utf8')`):
the sum of the UTF-8 encoded sizes of its characters — not the
character count. -/
def utf8Len (s : String) : Nat :=
  s.data.foldl (fun n c => n + c.utf8Size) 0

/-- `calculateBatchSize` from `assignment.js` (lines 53-56):
`Buffer.byteLength(JSON.stringify(batch), 'utf8')`, the UTF-8 byte
length of the JSON serialization. -/
def calculateBatchSize (batch : List Product) : Nat :=
  utf8Len (stringifyBatch batch)

/-- An entry of the `errors` array (the dead-letter ledger): batch
sequence number, error message of the last failed attempt, and the
timestamp at which the entry was appended. -/
structure FailureRecord where
  batchNumber : Nat
  error : String
  timestamp : Nat
deriving Repr, DecidableEq

/-- The mutable state of a `ProductFeedProcessor`, together with ghost
observation fields (sink payloads, delivered groups, log counters,
backoff sleeps) used to state the properties. -/
structure ProcState where
  currentBatch : List Product
  currentBatchSize : Nat
  productsProcessed : Nat
  batchesSent : Nat
  skippedProducts : Nat
  errors : List FailureRecord
  /-- ghost: number of `externalService.call` invocations so far. -/
  sinkCalls : Nat
  /-- ghost: the JSON payload of every sink call attempt, in order. -/
  payloads : List String
  /-- ghost: the groups whose delivery succeeded, in delivery order. -/
  sentGroups : List (List Product)
  /-- ghost: the groups sealed and handed to the delivery step. -/
  handedGroups : List (List Product)
  /-- ghost: warning-severity logs `(batchNumber, attempt)`. -/
  warnLogs : List (Nat × Nat)
  /-- ghost: number of error-severity logs. -/
  errorLogs : Nat
  /-- ghost: number of debug-severity logs. -/
  debugLogs : Nat
  /-- ghost: elapsed waiting time in milliseconds. -/
  clock : Nat
  /-- ghost: the individual backoff sleeps, in order. -/
  backoffs : List Nat
deriving Repr, DecidableEq

/-- The state of a freshly constructed processor. -/
def initState : ProcState :=
  { currentBatch := [], currentBatchSize := 0, productsProcessed := 0,
    batchesSent := 0, skippedProducts := 0, errors := [], sinkCalls := 0,
    payloads := [], sentGroups := [], handedGroups := [], warnLogs := [],
    errorLogs := 0, debugLogs := 0, clock := 0, backoffs := [] }

/-- The sink behaviour: outcome of the n-th `externalService.call`
(`none` = success, `some msg` = throws with message `msg`). -/
def Sink : Type := Nat → Option String

/-- A sink that succeeds on every call. -/
def alwaysOk : Sink := fun _ => none

/-- A sink that throws `e` on every call. -/
def alwaysFail (e : String) : Sink := fun _ => some e

/-- The retry loop of `sendBatchWithRetry` (`assignment.js` lines
66-110): `remaining` counts the loop iterations left
(`maxRetries - attempt`), `last` is the message of the last error seen.
Each iteration calls the sink; on success it records metrics and
returns; on failure it logs a warning with the 1-based attempt index
and, when this is not the final attempt, sleeps
`retryDelay * 2 ^ attempt` milliseconds. -/
def retryLoop (cfg : Config) (sink : Sink) (json : String)
    (ps : List Product) (bn : Nat) :
    Nat → Nat → String → ProcState → ProcState × Option String
  | _, 0, last, st => (st, some last)
  | attempt, r + 1, _, st =>
    match sink st.sinkCalls with
    | none =>
        ({ st with sinkCalls := st.sinkCalls + 1,
                   payloads := st.payloads ++ [json],
                   sentGroups := st.sentGroups ++ [ps] }, none)
    | some msg =>
        let st1 := { st with sinkCalls := st.sinkCalls + 1,
                             payloads := st.payloads ++ [json],
                             warnLogs := st.warnLogs ++ [(bn, attempt + 1)] }
        let st2 :=
          if attempt < cfg.maxRetries - 1 then
            { st1 with clock := st1.clock + cfg.retryDelay * 2 ^ attempt,
                       backoffs :=
                         st1.backoffs ++ [cfg.retryDelay * 2 ^ attempt] }
          else st1
        retryLoop cfg sink json ps bn (attempt + 1) r msg st2

/-- `sendBatchWithRetry` (`assignment.js` lines 62-125): run the retry
loop; if every attempt failed, log at error severity, append a
FailureRecord `{batchNumber, error, timestamp}` to `errors`, and throw. -/
def sendBatchWithRetry (cfg : Config) (sink : Sink) (json : String)
    (ps : List Product) (bn : Nat) (st : ProcState) :
    ProcState × Option String :=
  match retryLoop cfg sink json ps bn 0 cfg.maxRetries "" st with
  | (st1, none) => (st1, none)
  | (st1, some msg) =>
      ({ st1 with errorLogs := st1.errorLogs + 1,
                  errors := st1.errors ++ [⟨bn, msg, st1.clock⟩] }, some msg)

/-- `sendBatch` (`assignment.js` lines 127-140): no-op on an empty
batch; otherwise increment `batchesSent`, serialize the batch, run the
retry protocol, and — in a `finally` — reset `currentBatch` and
`currentBatchSize` whether or not delivery succeeded, re-throwing any
failure. -/
def sendBatch (cfg : Config) (sink : Sink) (st : ProcState) :
    ProcState × Option String :=
  if st.currentBatch = [] then (st, none)
  else
    let st1 := { st with batchesSent := st.batchesSent + 1,
                         handedGroups := st.handedGroups ++ [st.currentBatch] }
    let r := sendBatchWithRetry cfg sink (stringifyBatch st.currentBatch)
      st.currentBatch st1.batchesSent st1
    ({ r.1 with currentBatch := [], currentBatchSize := 0 }, r.2)

/-- The append step of `addProductToBatch` (lines 170-172): push the
product, recompute the batch size, count the product. -/
def appendProd (st : ProcState) (p : Product) : ProcState :=
  { st with currentBatch := st.currentBatch ++ [p],
            currentBatchSize := calculateBatchSize (st.currentBatch ++ [p]),
            productsProcessed := st.productsProcessed + 1 }

/-- `addProductToBatch` (`assignment.js` lines 159-176): compute the
size of the hypothetical batch extended with the product; if it is at
least `MAX_BATCH_SIZE - BUFFER_SIZE` and the current batch is
non-empty, send the current batch first (a thrown delivery failure
propagates and the product is never appended); then append the product. -/
def addProductToBatch (cfg : Config) (sink : Sink) (st : ProcState)
    (p : Product) : ProcState × Option String :=
  let testSize := calculateBatchSize (st.currentBatch ++ [p])
  if sizeLimit cfg ≤ testSize ∧ st.currentBatch ≠ [] then
    match sendBatch cfg sink st with
    | (st1, some msg) => (st1, some msg)
    | (st1, none) => (appendProd st1 p, none)
  else (appendProd st p, none)

/-- Whether the driver considers an extracted product valid:
`product.id && product.title` (JavaScript truthiness). -/
def validProduct (p : Product) : Bool := truthyV p.id && truthyV p.title

/-- One `endElement: item` handler invocation of `process`
(`assignment.js` lines 196-219): extract the product; if `id` and
`title` are truthy, add it to the batch — catching and error-logging
any delivery failure, so the stream continues — otherwise increment the
skipped counter and emit a debug-severity log. -/
def processItem (cfg : Config) (sink : Sink) (st : ProcState)
    (item : RawItem) : ProcState :=
  let p := extractProductData item
  if validProduct p then
    match addProductToBatch cfg sink st p with
    | (st1, none) => st1
    | (st1, some _) => { st1 with errorLogs := st1.errorLogs + 1 }
  else
    { st with skippedProducts := st.skippedProducts + 1,
              debugLogs := st.debugLogs + 1 }

/-- The item loop of `process`: the handlers fire in document order and
the tracked operations settle in order (the cooperative
single-stream-of-control model of the spec). -/
def processItems (cfg : Config) (sink : Sink) (st : ProcState)
    (items : List RawItem) : ProcState :=
  items.foldl (processItem cfg sink) st

/-- `process` (`assignment.js` lines 178-279) on a well-formed feed:
run every item handler, then on stream end send the final partial
batch; a failure of that final send rejects the returned promise
(`some msg`), anything else resolves (`none`). -/
def runProcess (cfg : Config) (sink : Sink) (items : List RawItem) :
    ProcState × Option String :=
  sendBatch cfg sink (processItems cfg sink initState items)

/-- Offering a sequence of products directly to the accumulator
(the fold of `addProductToBatch`, errors caught by the driver as in
`process`). -/
def offerProduct (cfg : Config) (sink : Sink) (st : ProcState)
    (p : Product) : ProcState :=
  (addProductToBatch cfg sink st p).1

/-- Offer a whole sequence, then flush, as the driver does at
end-of-stream. -/
def offerAllThenFlush (cfg : Config) (sink : Sink) (ps : List Product) :
    ProcState :=
  (sendBatch cfg sink (ps.foldl (offerProduct cfg sink) initState)).1

/-- The warning logs produced by attempts `a+1, a+2, ...` (`r` of them)
for batch `bn`. -/
def warnSeq (bn a r : Nat) : List (Nat × Nat) :=
  (List.range r).map (fun i => (bn, a + i + 1))

/-- The backoff sleeps `retryDelay * 2 ^ a, retryDelay * 2 ^ (a+1), ...`
(`k` of them). -/
def backoffSeq (cfg : Config) (a k : Nat) : List Nat :=
  (List.range k).map (fun i => cfg.retryDelay * 2 ^ (a + i))

/-- The products the processor currently holds: delivered ones in
order, followed by the in-progress group. -/
def accProducts (st : ProcState) : List Product :=
  st.sentGroups.flatten ++ st.currentBatch

/-- The source-order sequence of valid extracted products. -/
def validSeq (items : List RawItem) : List Product :=
  (items.map extractProductData).filter validProduct

/-- Modelled from the spec wording of the extraction policy (used to
compare the claim against the code): the inner text of a field value —
a text-holder always contributes its `$text`, and every value is
trimmed. -/
def claimText : RawVal → String
  | RawVal.vStr s => jsTrim s
  | RawVal.vHolder t => jsTrim t

/-- Modelled from the spec wording: a field "takes the namespaced field
when present, else the fallback". -/
def claimField (a : Option RawVal) (rest : String) : String :=
  match a with
  | some v => claimText v
  | none => rest

/-- Modelled from the spec wording of the whole extraction policy:
`id` prefers the namespaced field when present, then the bare field,
else empty; `description` prefers the namespaced field, then the bare
field, then the summary fallback, else empty; all values trimmed, and
text-holders always unwrapped.  The result has exactly the keys `id`,
`title`, `description` with string values. -/
def claimExtract (item : RawItem) : Product :=
  { id := RawVal.vStr (claimField item.gId (claimField item.bareId "")),
    title := RawVal.vStr (claimField item.title ""),
    description := RawVal.vStr
      (claimField item.gDescription
        (claimField item.description (claimField item.summary ""))) }

/-- The cleanup rule as the code actually implements it (the amended
extraction wording): strings are trimmed; a text-holder whose inner
text is non-empty is replaced by that text trimmed; a text-holder with
empty inner text is left unwrapped. -/
def amendedClean : RawVal → RawVal
  | RawVal.vStr s => RawVal.vStr (jsTrim s)
  | RawVal.vHolder t =>
      if t = "" then RawVal.vHolder "" else RawVal.vStr (jsTrim t)

/-- The field-selection rule as the code actually implements it (the
amended extraction wording): a field is chosen when it is present and
truthy (non-empty string, or any object); otherwise the fallback is
used. -/
def amendedChoose (a : Option RawVal) (rest : RawVal) : RawVal :=
  match a with
  | some v => if truthyV v then v else rest
  | none => rest

/-- The amended extraction policy: truthiness-based field preference
with the amended cleanup rule. -/
def amendedExtract (item : RawItem) : Product :=
  { id := amendedClean
      (amendedChoose item.gId (amendedChoose item.bareId (RawVal.vStr ""))),
    title := amendedClean (amendedChoose item.title (RawVal.vStr "")),
    description := amendedClean
      (amendedChoose item.gDescription
        (amendedChoose item.description
          (amendedChoose item.summary (RawVal.vStr "")))) }

/-- A small concrete product used to instantiate theorems. -/
def pW : Product := ⟨RawVal.vStr "A", RawVal.vStr "T", RawVal.vStr "D"⟩

/-- A small configuration (90-byte ceiling, 10-byte margin) used to
exercise mid-stream flushes on tiny inputs; `MAX_BATCH_SIZE` and
`BUFFER_SIZE` are environment-configurable in `config.js`. -/
def cfgX : Config :=
  { maxBatchSize := 90, bufferSize := 10, maxRetries := 3,
    retryDelay := 1000 }

/-- A concrete valid feed item. -/
def iA : RawItem :=
  ⟨some (RawVal.vStr "A"), none, some (RawVal.vStr "T"),
    some (RawVal.vStr "this is a long description one"), none, none⟩

/-- A second concrete valid feed item. -/
def iB : RawItem :=
  ⟨some (RawVal.vStr "B"), none, some (RawVal.vStr "U"),
    some (RawVal.vStr "this is a long description two"), none, none⟩

/-- The extracted products of `iA` and `iB`. -/
def pA : Product := extractProductData iA

/-- See `pA`. -/
def pB : Product := extractProductData iB

/-- The state after offering `pA` to a fresh accumulator whose sink
always fails (the first offer makes no sink call). -/
def stA : ProcState := offerProduct cfgX (alwaysFail "boom") initState pA

/-- A concrete feed item with no id field at all. -/
def iBad : RawItem := ⟨none, none, some (RawVal.vStr "T"), none, none, none⟩

/-- A concrete feed item with an empty namespaced id, a non-empty bare
id, and a text-holder title with empty inner text. -/
def iEdge : RawItem :=
  ⟨some (RawVal.vStr ""), some (RawVal.vStr "X"),
    some (RawVal.vHolder ""), none, none, none⟩

/-! ### Retry-loop lemmas -/

/-- The retry loop never touches the accumulator, the counters other
than `sinkCalls`, the error ledger, or the log counters other than
`warnLogs`. -/
theorem retryLoop_preserves (cfg : Config) (sink : Sink) (json : String)
    (ps : List Product) (bn : Nat) :
    ∀ r a last st,
      ((retryLoop cfg sink json ps bn a r last st).1.currentBatch
          = st.currentBatch) ∧
      ((retryLoop cfg sink json ps bn a r last st).1.currentBatchSize
          = st.currentBatchSize) ∧
      ((retryLoop cfg sink json ps bn a r last st).1.batchesSent
          = st.batchesSent) ∧
      ((retryLoop cfg sink json ps bn a r last st).1.skippedProducts
          = st.skippedProducts) ∧
      ((retryLoop cfg sink json ps bn a r last st).1.errors = st.errors) ∧
      ((retryLoop cfg sink json ps bn a r last st).1.errorLogs
          = st.errorLogs) ∧
      ((retryLoop cfg sink json ps bn a r last st).1.debugLogs
          = st.debugLogs) ∧
      ((retryLoop cfg sink json ps bn a r last st).1.handedGroups
          = st.handedGroups) ∧
      ((retryLoop cfg sink json ps bn a r last st).1.productsProcessed
          = st.productsProcessed) := by
  intro r
  induction r with
  | zero => intro a last st; simp [retryLoop]
  | succ r ih =>
    intro a last st
    simp only [retryLoop]
    cases h : sink st.sinkCalls with
    | none => simp
    | some msg =>
      simp only
      split
      · exact ih (a + 1) msg _
      · exact ih (a + 1) msg _

/-- The retry loop appends the delivered group to `sentGroups` exactly
when it succeeds. -/
theorem retryLoop_sentGroups (cfg : Config) (sink : Sink) (json : String)
    (ps : List Product) (bn : Nat) :
    ∀ r a last st,
      ((retryLoop cfg sink json ps bn a r last st).2 = none →
        (retryLoop cfg sink json ps bn a r last st).1.sentGroups
          = st.sentGroups ++ [ps]) ∧
      ((retryLoop cfg sink json ps bn a r last st).2 ≠ none →
        (retryLoop cfg sink json ps bn a r last st).1.sentGroups
          = st.sentGroups) := by
  intro r
  induction r with
  | zero => intro a last st; simp [retryLoop]
  | succ r ih =>
    intro a last st
    simp only [retryLoop]
    cases h : sink st.sinkCalls with
    | none => simp
    | some msg =>
      simp only
      split
      · exact ih (a + 1) msg _
      · exact ih (a + 1) msg _

/-- Every payload the retry loop hands to the sink is the serialized
group it was given. -/
theorem retryLoop_payloads (cfg : Config) (sink : Sink) (json : String)
    (ps : List Product) (bn : Nat) :
    ∀ r a last st x,
      x ∈ (retryLoop cfg sink json ps bn a r last st).1.payloads →
      x ∈ st.payloads ∨ x = json := by
  intro r
  induction r with
  | zero => intro a last st x; simp [retryLoop]; exact Or.inl
  | succ r ih =>
    intro a last st x
    simp only [retryLoop]
    cases h : sink st.sinkCalls with
    | none =>
      simp only
      intro hx
      rcases List.mem_append.1 hx with h1 | h1
      · exact Or.inl h1
      · exact Or.inr (List.mem_singleton.1 h1)
    | some msg =>
      simp only
      split
      · intro hx
        rcases ih (a + 1) msg _ x hx with h1 | h1
        · rcases List.mem_append.1 h1 with h2 | h2
          · exact Or.inl h2
          · exact Or.inr (List.mem_singleton.1 h2)
        · exact Or.inr h1
      · intro hx
        rcases ih (a + 1) msg _ x hx with h1 | h1
        · rcases List.mem_append.1 h1 with h2 | h2
          · exact Or.inl h2
          · exact Or.inr (List.mem_singleton.1 h2)
        · exact Or.inr h1

/-- With a sink that succeeds, the retry loop makes exactly one call. -/
theorem retryLoop_ok (cfg : Config) (json : String) (ps : List Product)
    (bn : Nat) (a r : Nat) (last : String) (st : ProcState) :
    retryLoop cfg alwaysOk json ps bn a (r + 1) last st =
      ({ st with sinkCalls := st.sinkCalls + 1,
                 payloads := st.payloads ++ [json],
                 sentGroups := st.sentGroups ++ [ps] }, none) := by
  simp [retryLoop, alwaysOk]

theorem warnSeq_succ (bn a r : Nat) :
    warnSeq bn a (r + 1) = (bn, a + 1) :: warnSeq bn (a + 1) r := by
  unfold warnSeq
  rw [List.range_succ_eq_map, List.map_cons, List.map_map]
  have h : ((fun i => (bn, a + i + 1)) ∘ Nat.succ)
      = fun i => (bn, a + 1 + i + 1) := by
    funext i
    simp only [Function.comp_apply]
    congr 1
    omega
  rw [h]

theorem backoffSeq_succ (cfg : Config) (a k : Nat) :
    backoffSeq cfg a (k + 1)
      = cfg.retryDelay * 2 ^ a :: backoffSeq cfg (a + 1) k := by
  unfold backoffSeq
  rw [List.range_succ_eq_map, List.map_cons, List.map_map]
  have h : ((fun i => cfg.retryDelay * 2 ^ (a + i)) ∘ Nat.succ)
      = fun i => cfg.retryDelay * 2 ^ (a + 1 + i) := by
    funext i
    simp only [Function.comp_apply]
    have hia : a + Nat.succ i = a + 1 + i := by omega
    rw [hia]
  rw [h, Nat.add_zero]

/-- Full characterization of the retry loop against a sink that throws
`e` on every call: `r` sink calls are made, each attempt is
warning-logged with its 1-based index, a backoff of
`retryDelay * 2 ^ attempt` is slept after every attempt except the
last, and the loop reports failure with the last error. -/
theorem retryLoop_fail (cfg : Config) (e json : String) (ps : List Product)
    (bn : Nat) :
    ∀ r a last st, a + r = cfg.maxRetries → 0 < r →
      retryLoop cfg (alwaysFail e) json ps bn a r last st =
        ({ st with
            sinkCalls := st.sinkCalls + r,
            payloads := st.payloads ++ List.replicate r json,
            warnLogs := st.warnLogs ++ warnSeq bn a r,
            clock := st.clock + (backoffSeq cfg a (r - 1)).sum,
            backoffs := st.backoffs ++ backoffSeq cfg a (r - 1) },
         some e) := by
  intro r
  induction r with
  | zero => intro a last st _ h; exact absurd h (by simp)
  | succ r ih =>
    intro a last st hmax _
    simp only [retryLoop, alwaysFail]
    rcases Nat.eq_zero_or_pos r with hr | hr
    · subst hr
      have hlt : ¬ a < cfg.maxRetries - 1 := by omega
      simp [retryLoop, hlt, warnSeq, backoffSeq, List.range_succ]
    · have hlt : a < cfg.maxRetries - 1 := by omega
      simp only [hlt, if_true]
      obtain ⟨s, rfl⟩ := Nat.exists_eq_succ_of_ne_zero (Nat.pos_iff_ne_zero.1 hr)
      rw [ih (a + 1) e _ (by omega) (by omega)]
      simp only [warnSeq_succ, List.replicate_succ]
      have hbo : backoffSeq cfg a (s + 1 + 1 - 1)
          = cfg.retryDelay * 2 ^ a :: backoffSeq cfg (a + 1) (s + 1 - 1) := by
        simp only [Nat.add_sub_cancel]
        exact backoffSeq_succ cfg a s
      rw [hbo]
      simp [Nat.add_assoc]
      omega

/-! ### `sendBatchWithRetry` lemmas -/

/-- `sendBatchWithRetry` never touches the accumulator or the counters
other than delivery bookkeeping. -/
theorem sbwr_preserves (cfg : Config) (sink : Sink) (json : String)
    (ps : List Product) (bn : Nat) (st : ProcState) :
    ((sendBatchWithRetry cfg sink json ps bn st).1.currentBatch
        = st.currentBatch) ∧
    ((sendBatchWithRetry cfg sink json ps bn st).1.currentBatchSize
        = st.currentBatchSize) ∧
    ((sendBatchWithRetry cfg sink json ps bn st).1.batchesSent
        = st.batchesSent) ∧
    ((sendBatchWithRetry cfg sink json ps bn st).1.skippedProducts
        = st.skippedProducts) ∧
    ((sendBatchWithRetry cfg sink json ps bn st).1.debugLogs
        = st.debugLogs) ∧
    ((sendBatchWithRetry cfg sink json ps bn st).1.handedGroups
        = st.handedGroups) ∧
    ((sendBatchWithRetry cfg sink json ps bn st).1.productsProcessed
        = st.productsProcessed) := by
  have hp := retryLoop_preserves cfg sink json ps bn cfg.maxRetries 0 "" st
  unfold sendBatchWithRetry
  rcases hre : retryLoop cfg sink json ps bn 0 cfg.maxRetries "" st
    with ⟨st1, res⟩
  rw [hre] at hp
  dsimp only at hp
  cases res with
  | none =>
    exact ⟨hp.1, hp.2.1, hp.2.2.1, hp.2.2.2.1, hp.2.2.2.2.2.2.1,
      hp.2.2.2.2.2.2.2.1, hp.2.2.2.2.2.2.2.2⟩
  | some msg =>
    exact ⟨hp.1, hp.2.1, hp.2.2.1, hp.2.2.2.1, hp.2.2.2.2.2.2.1,
      hp.2.2.2.2.2.2.2.1, hp.2.2.2.2.2.2.2.2⟩

/-- On success, `sendBatchWithRetry` leaves the ledger and error-log
count alone and records the delivered group. -/
theorem sbwr_ok (cfg : Config) (sink : Sink) (json : String)
    (ps : List Product) (bn : Nat) (st : ProcState) :
    (sendBatchWithRetry cfg sink json ps bn st).2 = none →
      ((sendBatchWithRetry cfg sink json ps bn st).1.errors = st.errors) ∧
      ((sendBatchWithRetry cfg sink json ps bn st).1.errorLogs
          = st.errorLogs) ∧
      ((sendBatchWithRetry cfg sink json ps bn st).1.sentGroups
          = st.sentGroups ++ [ps]) := by
  have hp := retryLoop_preserves cfg sink json ps bn cfg.maxRetries 0 "" st
  have hs := retryLoop_sentGroups cfg sink json ps bn cfg.maxRetries 0 "" st
  unfold sendBatchWithRetry
  rcases hre : retryLoop cfg sink json ps bn 0 cfg.maxRetries "" st
    with ⟨st1, res⟩
  rw [hre] at hp hs
  dsimp only at hp hs
  cases res with
  | none =>
    intro
    exact ⟨hp.2.2.2.2.1, hp.2.2.2.2.2.1, hs.1 rfl⟩
  | some msg => intro h; simp at h

/-- On exhausted retries, `sendBatchWithRetry` appends exactly one
FailureRecord carrying the batch number, the thrown message and the
current clock, and emits one error-severity log; no group is recorded
as delivered. -/
theorem sbwr_fail (cfg : Config) (sink : Sink) (json : String)
    (ps : List Product) (bn : Nat) (st : ProcState) (m : String) :
    (sendBatchWithRetry cfg sink json ps bn st).2 = some m →
      ((sendBatchWithRetry cfg sink json ps bn st).1.errors
          = st.errors
            ++ [⟨bn, m, (sendBatchWithRetry cfg sink json ps bn st).1.clock⟩]) ∧
      ((sendBatchWithRetry cfg sink json ps bn st).1.errorLogs
          = st.errorLogs + 1) ∧
      ((sendBatchWithRetry cfg sink json ps bn st).1.sentGroups
          = st.sentGroups) := by
  have hp := retryLoop_preserves cfg sink json ps bn cfg.maxRetries 0 "" st
  have hs := retryLoop_sentGroups cfg sink json ps bn cfg.maxRetries 0 "" st
  unfold sendBatchWithRetry
  rcases hre : retryLoop cfg sink json ps bn 0 cfg.maxRetries "" st
    with ⟨st1, res⟩
  rw [hre] at hp hs
  dsimp only at hp hs
  cases res with
  | none => intro h; simp at h
  | some msg =>
    intro h
    simp only [Option.some.injEq] at h
    subst h
    refine ⟨?_, ?_, ?_⟩
    · simp [hp.2.2.2.2.1]
    · simp [hp.2.2.2.2.2.1]
    · simpa using hs.2 (by simp)

/-- Every payload `sendBatchWithRetry` sends is the JSON it was given. -/
theorem sbwr_payloads (cfg : Config) (sink : Sink) (json : String)
    (ps : List Product) (bn : Nat) (st : ProcState) (x : String) :
    x ∈ (sendBatchWithRetry cfg sink json ps bn st).1.payloads →
      x ∈ st.payloads ∨ x = json := by
  have hpl := retryLoop_payloads cfg sink json ps bn cfg.maxRetries 0 "" st x
  unfold sendBatchWithRetry
  rcases hre : retryLoop cfg sink json ps bn 0 cfg.maxRetries "" st
    with ⟨st1, res⟩
  rw [hre] at hpl
  cases res with
  | none => exact hpl
  | some msg => simpa using hpl

/-- Full characterization of `sendBatchWithRetry` against an
always-throwing sink: `maxRetries` attempts, `maxRetries` warning logs
with 1-based attempt indices, backoffs `retryDelay * 2 ^ k` for
`k < maxRetries - 1`, one FailureRecord, one error log, failure
re-thrown. -/
theorem sbwr_alwaysFail (cfg : Config) (e json : String) (ps : List Product)
    (bn : Nat) (st : ProcState) (h : 1 ≤ cfg.maxRetries) :
    sendBatchWithRetry cfg (alwaysFail e) json ps bn st =
      ({ st with
          sinkCalls := st.sinkCalls + cfg.maxRetries,
          payloads := st.payloads ++ List.replicate cfg.maxRetries json,
          warnLogs := st.warnLogs ++ warnSeq bn 0 cfg.maxRetries,
          clock := st.clock + (backoffSeq cfg 0 (cfg.maxRetries - 1)).sum,
          backoffs := st.backoffs ++ backoffSeq cfg 0 (cfg.maxRetries - 1),
          errorLogs := st.errorLogs + 1,
          errors := st.errors
            ++ [⟨bn, e,
                  st.clock + (backoffSeq cfg 0 (cfg.maxRetries - 1)).sum⟩] },
       some e) := by
  unfold sendBatchWithRetry
  rw [retryLoop_fail cfg e json ps bn cfg.maxRetries 0 "" st (by omega)
    (by omega)]

/-! ### `sendBatch` lemmas -/

/-- `flush()` on an empty accumulator is a complete no-op. -/
theorem sendBatch_empty (cfg : Config) (sink : Sink) (st : ProcState)
    (h : st.currentBatch = []) : sendBatch cfg sink st = (st, none) := by
  simp [sendBatch, h]

/-- After `sendBatch` settles the current batch is always empty. -/
theorem sendBatch_currentBatch (cfg : Config) (sink : Sink)
    (st : ProcState) : (sendBatch cfg sink st).1.currentBatch = [] := by
  unfold sendBatch
  by_cases h : st.currentBatch = []
  · simp [h]
  · simp [h]

/-- `sendBatch` on a non-empty batch: the counter increments before the
attempt, the group is sealed and handed over, and the `finally` clause
resets the accumulator whatever the outcome. -/
theorem sendBatch_nonempty (cfg : Config) (sink : Sink) (st : ProcState)
    (h : st.currentBatch ≠ []) :
    ((sendBatch cfg sink st).1.currentBatch = []) ∧
    ((sendBatch cfg sink st).1.currentBatchSize = 0) ∧
    ((sendBatch cfg sink st).1.batchesSent = st.batchesSent + 1) ∧
    ((sendBatch cfg sink st).1.handedGroups
        = st.handedGroups ++ [st.currentBatch]) := by
  unfold sendBatch
  rw [if_neg h]
  dsimp only
  have hp := sbwr_preserves cfg sink (stringifyBatch st.currentBatch)
    st.currentBatch (st.batchesSent + 1)
    { st with batchesSent := st.batchesSent + 1,
              handedGroups := st.handedGroups ++ [st.currentBatch] }
  refine ⟨rfl, rfl, ?_, ?_⟩
  · simpa using hp.2.2.1
  · simpa using hp.2.2.2.2.2.1

/-- `sendBatch` does not change the skipped counter, the debug-log
counter or the products-processed counter. -/
theorem sendBatch_preserves (cfg : Config) (sink : Sink) (st : ProcState) :
    ((sendBatch cfg sink st).1.skippedProducts = st.skippedProducts) ∧
    ((sendBatch cfg sink st).1.debugLogs = st.debugLogs) ∧
    ((sendBatch cfg sink st).1.productsProcessed = st.productsProcessed) := by
  unfold sendBatch
  by_cases h : st.currentBatch = []
  · simp [h]
  · rw [if_neg h]
    dsimp only
    have hp := sbwr_preserves cfg sink (stringifyBatch st.currentBatch)
      st.currentBatch (st.batchesSent + 1)
      { st with batchesSent := st.batchesSent + 1,
                handedGroups := st.handedGroups ++ [st.currentBatch] }
    exact ⟨by simpa using hp.2.2.2.1, by simpa using hp.2.2.2.2.1,
      by simpa using hp.2.2.2.2.2.2⟩

/-- On a successful (or vacuous) flush the ledger is untouched and the
delivered products, in order, are moved from the accumulator to the
sent groups. -/
theorem sendBatch_ok (cfg : Config) (sink : Sink) (st : ProcState) :
    (sendBatch cfg sink st).2 = none →
      ((sendBatch cfg sink st).1.errors = st.errors) ∧
      ((sendBatch cfg sink st).1.errorLogs = st.errorLogs) ∧
      ((sendBatch cfg sink st).1.sentGroups.flatten
          = st.sentGroups.flatten ++ st.currentBatch) := by
  unfold sendBatch
  by_cases h : st.currentBatch = []
  · simp [h]
  · rw [if_neg h]
    dsimp only
    intro hok
    have ho := sbwr_ok cfg sink (stringifyBatch st.currentBatch)
      st.currentBatch (st.batchesSent + 1)
      { st with batchesSent := st.batchesSent + 1,
                handedGroups := st.handedGroups ++ [st.currentBatch] }
      (by simpa using hok)
    refine ⟨by simpa using ho.1, by simpa using ho.2.1, ?_⟩
    have h22 := ho.2.2
    dsimp only at h22
    rw [h22]
    simp

/-- On a flush whose delivery exhausts retries: the batch was non-empty,
exactly one FailureRecord is appended (sequence number
`batchesSent + 1`), one error log is emitted, and the group is not
recorded as delivered. -/
theorem sendBatch_fail (cfg : Config) (sink : Sink) (st : ProcState)
    (m : String) :
    (sendBatch cfg sink st).2 = some m →
      (st.currentBatch ≠ []) ∧
      ((sendBatch cfg sink st).1.errors
          = st.errors
            ++ [⟨st.batchesSent + 1, m, (sendBatch cfg sink st).1.clock⟩]) ∧
      ((sendBatch cfg sink st).1.errorLogs = st.errorLogs + 1) ∧
      ((sendBatch cfg sink st).1.sentGroups = st.sentGroups) := by
  unfold sendBatch
  by_cases h : st.currentBatch = []
  · simp [h]
  · rw [if_neg h]
    dsimp only
    intro hm
    have hf := sbwr_fail cfg sink (stringifyBatch st.currentBatch)
      st.currentBatch (st.batchesSent + 1)
      { st with batchesSent := st.batchesSent + 1,
                handedGroups := st.handedGroups ++ [st.currentBatch] }
      m (by simpa using hm)
    exact ⟨h, by simpa using hf.1, by simpa using hf.2.1,
      by simpa using hf.2.2⟩

/-- Every payload a flush hands to the sink is the serialization of the
batch being flushed. -/
theorem sendBatch_payloads (cfg : Config) (sink : Sink) (st : ProcState)
    (x : String) :
    x ∈ (sendBatch cfg sink st).1.payloads →
      x ∈ st.payloads ∨ x = stringifyBatch st.currentBatch := by
  unfold sendBatch
  by_cases h : st.currentBatch = []
  · simp [h]; exact Or.inl
  · rw [if_neg h]
    dsimp only
    intro hx
    have := sbwr_payloads cfg sink (stringifyBatch st.currentBatch)
      st.currentBatch (st.batchesSent + 1)
      { st with batchesSent := st.batchesSent + 1,
                handedGroups := st.handedGroups ++ [st.currentBatch] }
      x (by simpa using hx)
    simpa using this

/-! ### `addProductToBatch` lemmas -/

theorem ap_else (cfg : Config) (sink : Sink) (st : ProcState) (p : Product)
    (h : ¬(sizeLimit cfg ≤ calculateBatchSize (st.currentBatch ++ [p])
            ∧ st.currentBatch ≠ [])) :
    addProductToBatch cfg sink st p = (appendProd st p, none) := by
  unfold addProductToBatch
  dsimp only
  rw [if_neg h]

theorem ap_flush_ok (cfg : Config) (sink : Sink) (st : ProcState)
    (p : Product)
    (hc : sizeLimit cfg ≤ calculateBatchSize (st.currentBatch ++ [p])
            ∧ st.currentBatch ≠ [])
    (hok : (sendBatch cfg sink st).2 = none) :
    addProductToBatch cfg sink st p
      = (appendProd (sendBatch cfg sink st).1 p, none) := by
  unfold addProductToBatch
  dsimp only
  rw [if_pos hc]
  rcases hsb : sendBatch cfg sink st with ⟨st1, res⟩
  rw [hsb] at hok
  dsimp only at hok
  subst hok
  rfl

theorem ap_flush_fail (cfg : Config) (sink : Sink) (st : ProcState)
    (p : Product) (m : String)
    (hc : sizeLimit cfg ≤ calculateBatchSize (st.currentBatch ++ [p])
            ∧ st.currentBatch ≠ [])
    (hm : (sendBatch cfg sink st).2 = some m) :
    addProductToBatch cfg sink st p
      = ((sendBatch cfg sink st).1, some m) := by
  unfold addProductToBatch
  dsimp only
  rw [if_pos hc]
  rcases hsb : sendBatch cfg sink st with ⟨st1, res⟩
  rw [hsb] at hm
  dsimp only at hm
  subst hm
  rfl

/-- When an offer returns normally, the ledger is untouched and the
product is appended after everything already accumulated. -/
theorem ap_ok_acc (cfg : Config) (sink : Sink) (st : ProcState)
    (p : Product) (hok : (addProductToBatch cfg sink st p).2 = none) :
    ((addProductToBatch cfg sink st p).1.errors = st.errors) ∧
    (accProducts (addProductToBatch cfg sink st p).1
        = accProducts st ++ [p]) := by
  by_cases hc : sizeLimit cfg ≤ calculateBatchSize (st.currentBatch ++ [p])
      ∧ st.currentBatch ≠ []
  · rcases hres : (sendBatch cfg sink st).2 with _ | m
    · rw [ap_flush_ok cfg sink st p hc hres]
      have ho := sendBatch_ok cfg sink st hres
      have hcb := sendBatch_currentBatch cfg sink st
      constructor
      · simpa [appendProd] using ho.1
      · simp [accProducts, appendProd, hcb, ho.2.2, List.append_assoc]
    · rw [ap_flush_fail cfg sink st p m hc hres] at hok
      simp at hok
  · rw [ap_else cfg sink st p hc]
    constructor
    · rfl
    · simp [accProducts, appendProd, List.append_assoc]

/-- When an offer throws (delivery exhausted), exactly one
FailureRecord was appended and the product was not appended. -/
theorem ap_fail (cfg : Config) (sink : Sink) (st : ProcState) (p : Product)
    (m : String) (hm : (addProductToBatch cfg sink st p).2 = some m) :
    ((addProductToBatch cfg sink st p).1.errors.length
        = st.errors.length + 1) ∧
    ((addProductToBatch cfg sink st p).1.currentBatch = []) := by
  by_cases hc : sizeLimit cfg ≤ calculateBatchSize (st.currentBatch ++ [p])
      ∧ st.currentBatch ≠ []
  · rcases hres : (sendBatch cfg sink st).2 with _ | m'
    · rw [ap_flush_ok cfg sink st p hc hres] at hm
      simp at hm
    · rw [ap_flush_fail cfg sink st p m' hc hres] at hm ⊢
      dsimp only at hm
      have hf := sendBatch_fail cfg sink st m' hres
      constructor
      · simp [hf.2.1]
      · exact sendBatch_currentBatch cfg sink st
  · rw [ap_else cfg sink st p hc] at hm
    simp at hm

/-! ### Driver-step lemmas -/

/-- An item whose extraction is not valid only bumps the skipped
counter and the debug-log counter. -/
theorem processItem_invalid (cfg : Config) (sink : Sink) (st : ProcState)
    (item : RawItem)
    (h : validProduct (extractProductData item) = false) :
    processItem cfg sink st item
      = { st with skippedProducts := st.skippedProducts + 1,
                  debugLogs := st.debugLogs + 1 } := by
  simp [processItem, h]

/-- The error ledger never shrinks across a driver step. -/
theorem processItem_errlen (cfg : Config) (sink : Sink) (st : ProcState)
    (item : RawItem) :
    st.errors.length ≤ (processItem cfg sink st item).errors.length := by
  unfold processItem
  dsimp only
  by_cases hv : validProduct (extractProductData item)
  · rw [if_pos hv]
    rcases hap : addProductToBatch cfg sink st (extractProductData item)
      with ⟨st1, res⟩
    cases res with
    | none =>
      have := (ap_ok_acc cfg sink st (extractProductData item)
        (by rw [hap])).1
      rw [hap] at this
      simp_all
    | some m =>
      have := (ap_fail cfg sink st (extractProductData item) m
        (by rw [hap])).1
      rw [hap] at this
      dsimp only at this ⊢
      omega
  · rw [if_neg hv]

/-- A driver step that does not grow the ledger appends exactly the
valid extracted product (or nothing) to the accumulated output. -/
theorem processItem_acc_of_eq (cfg : Config) (sink : Sink) (st : ProcState)
    (item : RawItem)
    (h : (processItem cfg sink st item).errors.length = st.errors.length) :
    accProducts (processItem cfg sink st item)
      = accProducts st
        ++ (if validProduct (extractProductData item)
            then [extractProductData item] else []) := by
  unfold processItem at *
  dsimp only at h ⊢
  by_cases hv : validProduct (extractProductData item)
  · rw [if_pos hv] at h ⊢
    rcases hap : addProductToBatch cfg sink st (extractProductData item)
      with ⟨st1, res⟩
    rw [hap] at h
    cases res with
    | none =>
      have hacc := (ap_ok_acc cfg sink st (extractProductData item)
        (by rw [hap])).2
      rw [hap] at hacc
      simpa [hv] using hacc
    | some m =>
      have hlen := (ap_fail cfg sink st (extractProductData item) m
        (by rw [hap])).1
      rw [hap] at hlen
      dsimp only at h hlen
      omega
  · rw [if_neg hv] at h ⊢
    simp [accProducts, hv]

theorem processItems_cons (cfg : Config) (sink : Sink) (st : ProcState)
    (i : RawItem) (items : List RawItem) :
    processItems cfg sink st (i :: items)
      = processItems cfg sink (processItem cfg sink st i) items := rfl

theorem processItems_errlen (cfg : Config) (sink : Sink) :
    ∀ (items : List RawItem) (st : ProcState),
      st.errors.length ≤ (processItems cfg sink st items).errors.length := by
  intro items
  induction items with
  | nil => intro st; exact le_refl _
  | cons i items ih =>
    intro st
    calc st.errors.length
        ≤ (processItem cfg sink st i).errors.length :=
          processItem_errlen cfg sink st i
      _ ≤ (processItems cfg sink (processItem cfg sink st i)
            items).errors.length := ih _

/-- A run of driver steps that grows no ledger entry appends exactly
the valid products, in source order, to the accumulated output. -/
theorem processItems_acc_of_eq (cfg : Config) (sink : Sink) :
    ∀ (items : List RawItem) (st : ProcState),
      (processItems cfg sink st items).errors.length = st.errors.length →
      accProducts (processItems cfg sink st items)
        = accProducts st ++ validSeq items := by
  intro items
  induction items with
  | nil => intro st _; simp [processItems, validSeq]
  | cons i items ih =>
    intro st h
    rw [processItems_cons] at h ⊢
    have h1 := processItem_errlen cfg sink st i
    have h2 := processItems_errlen cfg sink items (processItem cfg sink st i)
    have he1 : (processItem cfg sink st i).errors.length
        = st.errors.length := by omega
    have he2 : (processItems cfg sink (processItem cfg sink st i)
        items).errors.length = (processItem cfg sink st i).errors.length := by
      omega
    rw [ih _ he2, processItem_acc_of_eq cfg sink st i he1]
    by_cases hv : validProduct (extractProductData i)
    · simp [validSeq, hv, List.filter_cons, List.append_assoc]
    · simp [validSeq, hv, List.filter_cons]

theorem warnSeq_zero (bn r : Nat) :
    warnSeq bn 0 r = (List.range r).map (fun i => (bn, i + 1)) := by
  simp [warnSeq]

theorem backoffSeq_zero (cfg : Config) (k : Nat) :
    backoffSeq cfg 0 k
      = (List.range k).map (fun i => cfg.retryDelay * 2 ^ i) := by
  simp [backoffSeq]

/-! ### Claim theorems -/

/-- C6: a raw record whose extracted `id` or `title` is empty after
trimming is never appended to any group and never delivered — the
driver step leaves the entire state (batch, sent groups, sink calls,
logs) unchanged except that the skipped-record counter increments by
exactly 1 and one debug-severity log is emitted; nothing is logged
about it above debug severity. -/
theorem C6_empty_field_record_skipped (cfg : Config) (sink : Sink)
    (st : ProcState) (item : RawItem)
    (h : (extractProductData item).id = RawVal.vStr ""
        ∨ (extractProductData item).title = RawVal.vStr "") :
    processItem cfg sink st item
      = { st with
            skippedProducts := st.skippedProducts + 1,
            debugLogs := st.debugLogs + 1 } := by
  apply processItem_invalid
  rcases h with h | h <;> simp [validProduct, h, truthyV]

theorem C6_empty_field_record_skipped_witness :
    ((extractProductData iBad).id = RawVal.vStr ""
        ∨ (extractProductData iBad).title = RawVal.vStr "") ∧
    processItem defaultConfig alwaysOk initState iBad
      = { initState with
            skippedProducts := initState.skippedProducts + 1,
            debugLogs := initState.debugLogs + 1 } :=
  ⟨by decide,
    C6_empty_field_record_skipped defaultConfig alwaysOk initState iBad
      (by decide)⟩

/-- C7: `flush()` on an empty accumulator is a no-op with no sink
invocation; a flush always leaves the accumulator empty, so a second
flush right after a first one is the identity and performs no sink
call — with a succeeding sink and a non-empty batch the first flush
performs exactly one sink invocation. -/
theorem C7_flush_idempotent (cfg : Config) (sink : Sink) (st : ProcState) :
    (st.currentBatch = [] → sendBatch cfg sink st = (st, none)) ∧
    (sendBatch cfg sink ((sendBatch cfg sink st).1)
        = ((sendBatch cfg sink st).1, none)) ∧
    (st.currentBatch ≠ [] → 1 ≤ cfg.maxRetries →
      (sendBatch cfg alwaysOk st).1.sinkCalls = st.sinkCalls + 1) := by
  refine ⟨fun h => sendBatch_empty cfg sink st h, ?_, ?_⟩
  · exact sendBatch_empty cfg sink _ (sendBatch_currentBatch cfg sink st)
  · intro h hm
    obtain ⟨k, hk⟩ :=
      Nat.exists_eq_succ_of_ne_zero (by omega : cfg.maxRetries ≠ 0)
    unfold sendBatch
    rw [if_neg h]
    dsimp only
    unfold sendBatchWithRetry
    rw [hk, retryLoop_ok]

theorem C7_flush_idempotent_witness :
    (sendBatch defaultConfig alwaysOk initState = (initState, none)) ∧
    (sendBatch defaultConfig alwaysOk
        ((sendBatch defaultConfig alwaysOk (appendProd initState pW)).1)
      = ((sendBatch defaultConfig alwaysOk (appendProd initState pW)).1,
          none)) ∧
    ((sendBatch defaultConfig alwaysOk (appendProd initState pW)).1.sinkCalls
      = (appendProd initState pW).sinkCalls + 1) :=
  ⟨(C7_flush_idempotent defaultConfig alwaysOk initState).1 (by decide),
    (C7_flush_idempotent defaultConfig alwaysOk
      (appendProd initState pW)).2.1,
    (C7_flush_idempotent defaultConfig alwaysOk
      (appendProd initState pW)).2.2 (by decide) (by decide)⟩

/-- C10: `sendBatch` on a non-empty batch always settles — whether the
delivery succeeded or threw after exhausting retries — with an empty
current batch, a zero tracked batch size, and the batches-sent counter
incremented by exactly 1; the records of a failed group are dropped,
not retained. -/
theorem C10_sendBatch_always_resets (cfg : Config) (sink : Sink)
    (st : ProcState) (h : st.currentBatch ≠ []) :
    ((sendBatch cfg sink st).1.currentBatch = []) ∧
    ((sendBatch cfg sink st).1.currentBatchSize = 0) ∧
    ((sendBatch cfg sink st).1.batchesSent = st.batchesSent + 1) :=
  ⟨(sendBatch_nonempty cfg sink st h).1,
    (sendBatch_nonempty cfg sink st h).2.1,
    (sendBatch_nonempty cfg sink st h).2.2.1⟩

theorem C10_sendBatch_always_resets_witness :
    ((appendProd initState pW).currentBatch ≠ []) ∧
    ((sendBatch defaultConfig (alwaysFail "boom")
        (appendProd initState pW)).1.currentBatch = []) ∧
    ((sendBatch defaultConfig (alwaysFail "boom")
        (appendProd initState pW)).1.currentBatchSize = 0) ∧
    ((sendBatch defaultConfig (alwaysFail "boom")
        (appendProd initState pW)).1.batchesSent
      = (appendProd initState pW).batchesSent + 1) :=
  ⟨by decide,
    (C10_sendBatch_always_resets defaultConfig (alwaysFail "boom")
      (appendProd initState pW) (by decide)).1,
    (C10_sendBatch_always_resets defaultConfig (alwaysFail "boom")
      (appendProd initState pW) (by decide)).2.1,
    (C10_sendBatch_always_resets defaultConfig (alwaysFail "boom")
      (appendProd initState pW) (by decide)).2.2⟩

/-- C4: against a sink that fails on every call, a send of a non-empty
batch performs exactly `MAX_RETRIES` sink attempts, logs each failed
attempt at warning severity with its 1-based attempt index, sleeps
`RETRY_DELAY * 2 ^ k` before retry `k+1`, waits in total exactly (hence
at least) `RETRY_DELAY * (2^0 + 2^1 + ... + 2^(MAX_RETRIES-2))`
milliseconds of backoff, appends exactly one FailureRecord, and throws. -/
theorem C4_always_failing_sink_retry_protocol (cfg : Config) (e : String)
    (st : ProcState) (h1 : 1 ≤ cfg.maxRetries) (h2 : st.currentBatch ≠ []) :
    ((sendBatch cfg (alwaysFail e) st).1.sinkCalls
        = st.sinkCalls + cfg.maxRetries) ∧
    ((sendBatch cfg (alwaysFail e) st).1.warnLogs
        = st.warnLogs ++ (List.range cfg.maxRetries).map
            (fun k => (st.batchesSent + 1, k + 1))) ∧
    ((sendBatch cfg (alwaysFail e) st).1.backoffs
        = st.backoffs ++ (List.range (cfg.maxRetries - 1)).map
            (fun k => cfg.retryDelay * 2 ^ k)) ∧
    ((sendBatch cfg (alwaysFail e) st).1.clock
        = st.clock + ((List.range (cfg.maxRetries - 1)).map
            (fun k => cfg.retryDelay * 2 ^ k)).sum) ∧
    (st.clock + ((List.range (cfg.maxRetries - 1)).map
            (fun k => cfg.retryDelay * 2 ^ k)).sum
        ≤ (sendBatch cfg (alwaysFail e) st).1.clock) ∧
    ((sendBatch cfg (alwaysFail e) st).1.errors
        = st.errors ++ [⟨st.batchesSent + 1, e,
            (sendBatch cfg (alwaysFail e) st).1.clock⟩]) ∧
    ((sendBatch cfg (alwaysFail e) st).2 = some e) := by
  unfold sendBatch
  rw [if_neg h2]
  dsimp only
  rw [sbwr_alwaysFail cfg e (stringifyBatch st.currentBatch)
    st.currentBatch (st.batchesSent + 1) _ h1]
  dsimp only
  rw [warnSeq_zero, backoffSeq_zero]
  exact ⟨rfl, rfl, rfl, rfl, le_refl _, rfl, rfl⟩

theorem C4_always_failing_sink_retry_protocol_witness :
    (1 ≤ defaultConfig.maxRetries) ∧
    ((appendProd initState pW).currentBatch ≠ []) ∧
    ((sendBatch defaultConfig (alwaysFail "boom")
        (appendProd initState pW)).1.sinkCalls
      = (appendProd initState pW).sinkCalls + defaultConfig.maxRetries) :=
  ⟨by decide, by decide,
    (C4_always_failing_sink_retry_protocol defaultConfig "boom"
      (appendProd initState pW) (by decide) (by decide)).1⟩

/-- C3 counterexample: with the (environment-configurable) 90-byte
ceiling and a sink that always fails, a feed of two valid records loses
its first group to exhausted retries — one FailureRecord is appended —
yet `process` resolves normally (`none`): the overall run continues and
completes without the failure being surfaced as fatal, because the
driver catches the error thrown out of `addProductToBatch`. -/
theorem C3_counterexample :
    ((runProcess cfgX (alwaysFail "boom") [iA, iB]).1.errors.length = 1) ∧
    ((runProcess cfgX (alwaysFail "boom") [iA, iB]).2 = none) := by
  constructor <;> decide

/-- C3 (amended): whenever a group fails delivery on `MAX_RETRIES`
consecutive attempts, a FailureRecord (sequence number, error
description, timestamp) is appended to the ledger, an error-severity
log is emitted, and the failure is thrown to the immediate caller of
the delivery step; however the driver catches a mid-stream failure,
logs it at error severity, and the run continues — only a failure of
the final flush is surfaced as fatal to the run. -/
theorem C3_exhausted_retries_ledger (cfg : Config) (e : String)
    (st : ProcState) (h1 : 1 ≤ cfg.maxRetries) (h2 : st.currentBatch ≠ []) :
    ((sendBatch cfg (alwaysFail e) st).2 = some e) ∧
    ((sendBatch cfg (alwaysFail e) st).1.errors
        = st.errors ++ [⟨st.batchesSent + 1, e,
            (sendBatch cfg (alwaysFail e) st).1.clock⟩]) ∧
    ((sendBatch cfg (alwaysFail e) st).1.errorLogs = st.errorLogs + 1) ∧
    (∀ (sink : Sink) (st2 st3 : ProcState) (item : RawItem) (m : String),
      validProduct (extractProductData item) = true →
      addProductToBatch cfg sink st2 (extractProductData item)
          = (st3, some m) →
      processItem cfg sink st2 item
          = { st3 with errorLogs := st3.errorLogs + 1 }) := by
  have hsome : (sendBatch cfg (alwaysFail e) st).2 = some e := by
    unfold sendBatch
    rw [if_neg h2]
    dsimp only
    rw [sbwr_alwaysFail cfg e (stringifyBatch st.currentBatch)
      st.currentBatch (st.batchesSent + 1) _ h1]
  have hf := sendBatch_fail cfg (alwaysFail e) st e hsome
  refine ⟨hsome, hf.2.1, hf.2.2.1, ?_⟩
  intro sink st2 st3 item m hv hap
  simp [processItem, hv, hap]

theorem C3_exhausted_retries_ledger_witness :
    (1 ≤ defaultConfig.maxRetries) ∧
    ((appendProd initState pW).currentBatch ≠ []) ∧
    ((sendBatch defaultConfig (alwaysFail "boom")
        (appendProd initState pW)).2 = some "boom") :=
  ⟨by decide, by decide,
    (C3_exhausted_retries_ledger defaultConfig "boom"
      (appendProd initState pW) (by decide) (by decide)).1⟩

/-- C8: the size estimate is the exact UTF-8 byte length of the JSON
serialization of the group (demonstrably not the character count: 43
bytes vs 42 characters on a batch with a two-byte character), the
hypothetical-group check of `addProductToBatch` is computed with that
same estimator on `currentBatch ++ [p]`, and every byte payload handed
to the sink is that identical serialization of the flushed batch. -/
theorem C8_estimate_matches_delivered_bytes (cfg : Config) (sink : Sink)
    (st : ProcState) (x : String) :
    (∀ ps : List Product,
      calculateBatchSize ps = utf8Len (stringifyBatch ps)) ∧
    (∀ (st2 : ProcState) (p : Product),
      ¬(sizeLimit cfg ≤ calculateBatchSize (st2.currentBatch ++ [p])
          ∧ st2.currentBatch ≠ []) →
      addProductToBatch cfg sink st2 p = (appendProd st2 p, none)) ∧
    (x ∈ (sendBatch cfg sink st).1.payloads →
      x ∈ st.payloads ∨ x = stringifyBatch st.currentBatch) ∧
    (calculateBatchSize
        [⟨RawVal.vStr "a", RawVal.vStr "b", RawVal.vStr "é"⟩] = 43) ∧
    ((stringifyBatch
        [⟨RawVal.vStr "a", RawVal.vStr "b", RawVal.vStr "é"⟩]).length
      = 42) :=
  ⟨fun _ => rfl, fun st2 p h => ap_else cfg sink st2 p h,
    sendBatch_payloads cfg sink st x, by decide, by decide⟩

theorem C8_estimate_matches_delivered_bytes_witness :
    (stringifyBatch [pW] ∈ (sendBatch defaultConfig alwaysOk
        (appendProd initState pW)).1.payloads) ∧
    (stringifyBatch [pW] ∈ (appendProd initState pW).payloads
      ∨ stringifyBatch [pW]
          = stringifyBatch (appendProd initState pW).currentBatch) :=
  ⟨by decide,
    (C8_estimate_matches_delivered_bytes defaultConfig alwaysOk
      (appendProd initState pW) (stringifyBatch [pW])).2.2.1 (by decide)⟩

/-- C5 counterexample: with the 90-byte ceiling, a non-empty current
group `[pA]`, and a sink that always fails, offering `pB` satisfies the
flush condition, but after the call the record `pB` does NOT start the
next group — the delivery failure propagates before the append and the
accumulator is left empty, so the claim's "the record then starts the
next group" is false as stated. -/
theorem C5_counterexample :
    (sizeLimit cfgX ≤ calculateBatchSize (stA.currentBatch ++ [pB])) ∧
    (stA.currentBatch ≠ []) ∧
    ((addProductToBatch cfgX (alwaysFail "boom") stA pB).1.currentBatch
        ≠ [pB]) := by
  refine ⟨by decide, by decide, by decide⟩

/-- C5 (amended): if the estimated size of the current group extended
with the record reaches `MAX_BATCH_SIZE - SAFETY_MARGIN` and the
current group is non-empty, the current group is sealed and handed to
the delivery step before the record is appended; if delivery succeeds
the record then starts the next group, while on a terminal delivery
failure the error propagates and the record is not appended (the
accumulator is left empty).  If the current group is empty, the record
is appended — even when it alone exceeds the ceiling — with no
delivery. -/
theorem C5_offer_seals_before_append (cfg : Config) (sink : Sink)
    (st : ProcState) (p : Product) :
    ((sizeLimit cfg ≤ calculateBatchSize (st.currentBatch ++ [p])
        ∧ st.currentBatch ≠ []) →
      (((addProductToBatch cfg sink st p).1.handedGroups
          = st.handedGroups ++ [st.currentBatch]) ∧
       ((addProductToBatch cfg sink st p).2 = none →
         (addProductToBatch cfg sink st p).1.currentBatch = [p]) ∧
       (∀ m, (addProductToBatch cfg sink st p).2 = some m →
         (addProductToBatch cfg sink st p).1.currentBatch = []))) ∧
    (st.currentBatch = [] →
      (addProductToBatch cfg sink st p = (appendProd st p, none)) ∧
      ((addProductToBatch cfg sink st p).1.currentBatch = [p])) := by
  constructor
  · intro hc
    rcases hres : (sendBatch cfg sink st).2 with _ | m
    · rw [ap_flush_ok cfg sink st p hc hres]
      have hsb := sendBatch_nonempty cfg sink st hc.2
      refine ⟨?_, ?_, ?_⟩
      · dsimp only [appendProd]
        exact hsb.2.2.2
      · intro _
        dsimp only [appendProd]
        rw [sendBatch_currentBatch]
        rfl
      · intro m hm
        simp at hm
    · rw [ap_flush_fail cfg sink st p m hc hres]
      have hsb := sendBatch_nonempty cfg sink st hc.2
      refine ⟨hsb.2.2.2, ?_, ?_⟩
      · intro h0
        simp at h0
      · intro m' _
        exact sendBatch_currentBatch cfg sink st
  · intro hemp
    have hno : ¬(sizeLimit cfg ≤ calculateBatchSize (st.currentBatch ++ [p])
        ∧ st.currentBatch ≠ []) := fun hh => hh.2 hemp
    rw [ap_else cfg sink st p hno]
    refine ⟨rfl, ?_⟩
    dsimp only [appendProd]
    rw [hemp]
    rfl

theorem C5_offer_seals_before_append_witness :
    (sizeLimit cfgX ≤ calculateBatchSize (stA.currentBatch ++ [pB])
        ∧ stA.currentBatch ≠ []) ∧
    ((addProductToBatch cfgX alwaysOk stA pB).1.handedGroups
        = stA.handedGroups ++ [stA.currentBatch]) :=
  ⟨by decide,
    ((C5_offer_seals_before_append cfgX alwaysOk stA pB).1 (by decide)).1⟩

/-- C9 counterexample: on an item whose namespaced id is present but
empty, whose bare id is `"X"`, and whose title is a text-holder with
empty inner text, the code's extraction differs from the claimed policy
(namespaced-field preference "when present" and unconditional
text-holder unwrapping): the code yields id `"X"` (not `""`) and leaves
the title holder unUnwrapped. -/
theorem C9_counterexample :
    extractProductData iEdge ≠ claimExtract iEdge := by decide

/-- C9 (amended): extraction returns a record with exactly the keys
`id`, `title`, `description`, where each field takes the first
JavaScript-truthy candidate — namespaced before bare for `id`;
namespaced, bare, then summary for `description` — else empty; string
values are trimmed; a text-holder whose inner text is non-empty is
replaced by that inner text trimmed, while a text-holder with empty
inner text is left unwrapped. -/
theorem C9_extraction_policy (item : RawItem) :
    extractProductData item = amendedExtract item := by
  have hch : ∀ a r, amendedChoose a r = jsOr a r := by
    intro a r
    cases a <;> rfl
  have hcl : ∀ v, amendedClean v = cleanup v := by
    intro v
    cases v with
    | vStr s => rfl
    | vHolder t =>
      by_cases ht : t = ""
      · subst ht
        rfl
      · simp [amendedClean, cleanup, ht]
  simp [extractProductData, amendedExtract, hch, hcl]

theorem calcBatchSize_nil : calculateBatchSize [] = 2 := rfl

/-- One offer keeps the accumulator and every payload strictly below
the limit, when the offered record is individually below the limit. -/
theorem offer_keeps_small (cfg : Config) (sink : Sink)
    (h2 : 2 < sizeLimit cfg) (st : ProcState) (p : Product)
    (hp : calculateBatchSize [p] < sizeLimit cfg)
    (hcur : calculateBatchSize st.currentBatch < sizeLimit cfg)
    (hpay : ∀ s ∈ st.payloads, utf8Len s < sizeLimit cfg) :
    (calculateBatchSize (offerProduct cfg sink st p).currentBatch
        < sizeLimit cfg) ∧
    (∀ s ∈ (offerProduct cfg sink st p).payloads,
      utf8Len s < sizeLimit cfg) := by
  unfold offerProduct
  by_cases hc : sizeLimit cfg ≤ calculateBatchSize (st.currentBatch ++ [p])
      ∧ st.currentBatch ≠ []
  · have hpay1 : ∀ s ∈ (sendBatch cfg sink st).1.payloads,
        utf8Len s < sizeLimit cfg := by
      intro s hs
      rcases sendBatch_payloads cfg sink st s hs with h | h
      · exact hpay s h
      · subst h
        exact hcur
    rcases hres : (sendBatch cfg sink st).2 with _ | m
    · rw [ap_flush_ok cfg sink st p hc hres]
      constructor
      · dsimp only [appendProd]
        rw [sendBatch_currentBatch]
        simpa using hp
      · dsimp only [appendProd]
        exact hpay1
    · rw [ap_flush_fail cfg sink st p m hc hres]
      constructor
      · rw [sendBatch_currentBatch, calcBatchSize_nil]
        exact h2
      · exact hpay1
  · rw [ap_else cfg sink st p hc]
    constructor
    · dsimp only [appendProd]
      rcases not_and_or.mp hc with hA | hB
      · exact lt_of_not_ge hA
      · have hB' : st.currentBatch = [] := not_not.mp hB
        rw [hB']
        simpa using hp
    · dsimp only [appendProd]
      exact hpay

/-- The invariant of `offer_keeps_small`, folded over a whole sequence
of offers. -/
theorem offers_keep_small (cfg : Config) (sink : Sink)
    (h2 : 2 < sizeLimit cfg) :
    ∀ (ps : List Product) (st : ProcState),
      (∀ p ∈ ps, calculateBatchSize [p] < sizeLimit cfg) →
      calculateBatchSize st.currentBatch < sizeLimit cfg →
      (∀ s ∈ st.payloads, utf8Len s < sizeLimit cfg) →
      (calculateBatchSize
          (ps.foldl (offerProduct cfg sink) st).currentBatch
        < sizeLimit cfg) ∧
      (∀ s ∈ (ps.foldl (offerProduct cfg sink) st).payloads,
        utf8Len s < sizeLimit cfg) := by
  intro ps
  induction ps with
  | nil => intro st _ hcur hpay; exact ⟨hcur, hpay⟩
  | cons p ps ih =>
    intro st hsmall hcur hpay
    have hstep := offer_keeps_small cfg sink h2 st p
      (hsmall p (by simp)) hcur hpay
    simpa using ih (offerProduct cfg sink st p)
      (fun q hq => hsmall q (by simp [hq])) hstep.1 hstep.2

/-- C1: for every sequence of offered records each of whose individual
encoded sizes is below `MAX_BATCH_SIZE - BUFFER_SIZE`, every byte
payload handed to the sink (including the final flush) is strictly
below that bound; and unconditionally, after any offer or flush
returns, the current group's estimated size is strictly below the
bound or the group holds exactly one oversized record. -/
theorem C1_groups_stay_below_limit (cfg : Config) (sink : Sink)
    (h2 : 2 < sizeLimit cfg) :
    (∀ ps : List Product,
      (∀ p ∈ ps, calculateBatchSize [p] < sizeLimit cfg) →
      ∀ s ∈ (offerAllThenFlush cfg sink ps).payloads,
        utf8Len s < sizeLimit cfg) ∧
    (∀ (st : ProcState) (p : Product),
      calculateBatchSize (offerProduct cfg sink st p).currentBatch
          < sizeLimit cfg
        ∨ ∃ q, (offerProduct cfg sink st p).currentBatch = [q]
            ∧ sizeLimit cfg ≤ calculateBatchSize [q]) ∧
    (∀ st : ProcState,
      calculateBatchSize (sendBatch cfg sink st).1.currentBatch
        < sizeLimit cfg) := by
  refine ⟨?_, ?_, ?_⟩
  · intro ps hsmall
    have hinv := offers_keep_small cfg sink h2 ps initState hsmall
      (by rw [show initState.currentBatch = [] from rfl, calcBatchSize_nil]
          exact h2)
      (by intro s hs; simp [initState] at hs)
    unfold offerAllThenFlush
    intro s hs
    rcases sendBatch_payloads cfg sink _ s hs with h | h
    · exact hinv.2 s h
    · subst h
      exact hinv.1
  · intro st p
    unfold offerProduct
    by_cases hc : sizeLimit cfg ≤ calculateBatchSize (st.currentBatch ++ [p])
        ∧ st.currentBatch ≠ []
    · rcases hres : (sendBatch cfg sink st).2 with _ | m
      · rw [ap_flush_ok cfg sink st p hc hres]
        dsimp only [appendProd]
        rw [sendBatch_currentBatch]
        by_cases hq : calculateBatchSize [p] < sizeLimit cfg
        · left
          simpa using hq
        · right
          exact ⟨p, by simp, le_of_not_lt hq⟩
      · rw [ap_flush_fail cfg sink st p m hc hres]
        left
        rw [sendBatch_currentBatch, calcBatchSize_nil]
        exact h2
    · rw [ap_else cfg sink st p hc]
      dsimp only [appendProd]
      rcases not_and_or.mp hc with hA | hB
      · left
        exact lt_of_not_ge hA
      · have hB' : st.currentBatch = [] := not_not.mp hB
        rw [hB']
        by_cases hq : calculateBatchSize [p] < sizeLimit cfg
        · left
          simpa using hq
        · right
          refine ⟨p, by simp, le_of_not_lt hq⟩
  · intro st
    rw [sendBatch_currentBatch, calcBatchSize_nil]
    exact h2

theorem C1_groups_stay_below_limit_witness :
    (2 < sizeLimit cfgX) ∧
    (utf8Len (stringifyBatch [pA]) < sizeLimit cfgX) :=
  ⟨by decide,
    (C1_groups_stay_below_limit cfgX alwaysOk (by decide)).1 [pA, pB]
      (by decide) (stringifyBatch [pA]) (by decide)⟩

/-- C2: for every record sequence processed to completion without
terminal failure (an empty error ledger at the end), the promise
resolves and concatenating the delivered groups in delivery order
reproduces exactly the source order of the valid (non-skipped)
records — no duplicates, no omissions, no interleaving across groups. -/
theorem C2_delivery_reproduces_source_order (cfg : Config) (sink : Sink)
    (items : List RawItem)
    (h : (runProcess cfg sink items).1.errors = []) :
    ((runProcess cfg sink items).2 = none) ∧
    ((runProcess cfg sink items).1.sentGroups.flatten = validSeq items) := by
  unfold runProcess at h ⊢
  rcases hres : (sendBatch cfg sink
      (processItems cfg sink initState items)).2 with _ | m
  · have ho := sendBatch_ok cfg sink
      (processItems cfg sink initState items) hres
    rw [ho.1] at h
    have hlen : (processItems cfg sink initState items).errors.length
        = initState.errors.length := by
      rw [h]
      rfl
    have hacc := processItems_acc_of_eq cfg sink items initState hlen
    refine ⟨rfl, ?_⟩
    rw [ho.2.2]
    simpa [accProducts, initState] using hacc
  · exfalso
    have hf := sendBatch_fail cfg sink
      (processItems cfg sink initState items) m hres
    rw [hf.2.1] at h
    simp at h

theorem C2_delivery_reproduces_source_order_witness :
    ((runProcess defaultConfig alwaysOk [iA, iB]).1.errors = []) ∧
    ((runProcess defaultConfig alwaysOk [iA, iB]).1.sentGroups.flatten
        = validSeq [iA, iB]) :=
  ⟨by decide,
    (C2_delivery_reproduces_source_order defaultConfig alwaysOk [iA, iB]
      (by decide)).2⟩

end PFeed
